import Mathlib

/-!
Verification of the signal-aggregation, leader-election, trade-routing,
sizing and slippage components of a copy-trading bot.

Numbers: the TypeScript source computes with IEEE doubles; this development
models them as rationals (`ℚ`), so every arithmetic step is exact.  Missing
or non-numeric JSON fields are modelled as `none : Option ℚ`; `toNumber`
reproduces the fallback coercion of the source.  On rationals the Kahan
compensation term is exactly zero, so the compensated accumulator computes
the exact sum; "within floating tolerance" statements become equalities.
-/

namespace CopyBot

/-- Model of `toNumber`: a present (finite) numeric value passes through,
everything else becomes the fallback. -/
def toNumber (v : Option ℚ) (fallback : ℚ) : ℚ :=
  v.getD fallback

/-- Model of the `KahanSum` class: compensated summation state. -/
structure KahanSum where
  sum : ℚ
  c : ℚ
  deriving DecidableEq

/-- Fresh accumulator (`sum = 0`, `c = 0`). -/
def KahanSum.empty : KahanSum := ⟨0, 0⟩

/-- Model of `KahanSum.add`: skips zero (the source also skips non-finite
values, which cannot arise in `ℚ`), otherwise performs the compensated
update. -/
def KahanSum.add (k : KahanSum) (value : ℚ) : KahanSum :=
  if value = 0 then k
  else
    let y := value - k.c
    let t := k.sum + y
    { sum := t, c := t - k.sum - y }

/-- Model of `KahanSum.value`. -/
def KahanSum.value (k : KahanSum) : ℚ := k.sum

/-- One raw activity row as consumed by `aggregateTradeActivities`.  String
fields are coerced with `String(x || '')` in the source, so they are plain
strings here; numeric fields keep their possibly-missing nature. -/
structure Activity where
  transactionHash : String
  conditionId : String
  asset : String
  side : String
  type : String
  size : Option ℚ
  usdcSize : Option ℚ
  price : Option ℚ
  timestamp : Option ℚ
  id : Option String
  tradeId : Option String
  trade_id : Option String
  matchId : Option String
  match_id : Option String
  logIndex : Option String
  log_index : Option String
  deriving DecidableEq

/-- Model of `findActivityId`: first candidate among the alias fields that
is present, non-empty, and not the literal strings "null"/"undefined". -/
def findActivityId (a : Activity) : Option String :=
  [a.id, a.tradeId, a.trade_id, a.matchId, a.match_id, a.logIndex,
    a.log_index].findSome? fun candidate =>
    match candidate with
    | none => none
    | some v =>
        if 0 < v.length ∧ v ≠ "null" ∧ v ≠ "undefined" then some v else none

/-- Per-group accumulation state, mirroring the record stored in the
`groups` map of `aggregateTradeActivities`. -/
structure FillGroup where
  base : Activity
  sumSize : KahanSum
  sumUsdc : KahanSum
  fillCount : ℕ
  minPrice : Option ℚ
  maxPrice : Option ℚ
  firstFillTimestamp : ℚ
  lastFillTimestamp : ℚ
  seenIds : List String
  deriving DecidableEq

/-- Aggregation state: the insertion-ordered group map plus the counter
used to build synthetic keys for rows without a transaction hash. -/
structure AggState where
  groups : List (String × FillGroup)
  noTxCounter : ℕ
  deriving DecidableEq

/-- Lookup in the insertion-ordered group list (JS `Map.get`). -/
def findGroup : List (String × FillGroup) → String → Option FillGroup
  | [], _ => none
  | (k, g) :: rest, key => if k = key then some g else findGroup rest key

/-- In-place update of one key in the group list (JS `Map.set` on an
existing key keeps the insertion position). -/
def setGroup : List (String × FillGroup) → String → FillGroup →
    List (String × FillGroup)
  | [], _, _ => []
  | (k, g) :: rest, key, g2 =>
      if k = key then (key, g2) :: rest else (k, g) :: setGroup rest key g2

/-- Grouping key `txKey:conditionId:asset:side:type`. -/
def groupKeyOf (txKey : String) (a : Activity) : String :=
  txKey ++ ":" ++ a.conditionId ++ ":" ++ a.asset ++ ":" ++ a.side ++ ":" ++
    a.type

/-- Group record created for the first row of a fresh key (source lines
99-120). -/
def initGroupOf (a : Activity) : FillGroup :=
  let size := |toNumber a.size 0|
  let usdcSize := |toNumber a.usdcSize 0|
  let price := toNumber a.price 0
  let timestamp := toNumber a.timestamp 0
  { base := a
    sumSize := KahanSum.empty.add size
    sumUsdc := KahanSum.empty.add usdcSize
    fillCount := 1
    minPrice := if 0 < price then some price else none
    maxPrice := if 0 < price then some price else none
    firstFillTimestamp := timestamp
    lastFillTimestamp := timestamp
    seenIds :=
      match findActivityId a with
      | some i => [i]
      | none => [] }

/-- Shared tail of the `aggregateTradeActivities` loop body: add the fill
to the running sums and refresh count, timestamps and price extremes
(source lines 131-147). -/
def updateExisting (existing : FillGroup)
    (size usdcSize price timestamp : ℚ) : FillGroup :=
  { existing with
    sumSize := existing.sumSize.add size
    sumUsdc := existing.sumUsdc.add usdcSize
    fillCount := existing.fillCount + 1
    firstFillTimestamp :=
      if timestamp ≠ 0 ∧
          (existing.firstFillTimestamp = 0 ∨
            timestamp < existing.firstFillTimestamp) then
        timestamp
      else existing.firstFillTimestamp
    lastFillTimestamp :=
      if timestamp ≠ 0 ∧
          (existing.lastFillTimestamp = 0 ∨
            existing.lastFillTimestamp < timestamp) then
        timestamp
      else existing.lastFillTimestamp
    minPrice :=
      if 0 < price ∧
          (existing.minPrice = none ∨
            ∃ m, existing.minPrice = some m ∧ price < m) then
        some price
      else existing.minPrice
    maxPrice :=
      if 0 < price ∧
          (existing.maxPrice = none ∨
            ∃ m, existing.maxPrice = some m ∧ m < price) then
        some price
      else existing.maxPrice }

/-- Loop body of `aggregateTradeActivities` for one activity row. -/
def processActivity (st : AggState) (a : Activity) : AggState :=
  let txKey :=
    if 0 < a.transactionHash.length then a.transactionHash
    else "no_tx:" ++ toString st.noTxCounter
  let counter2 :=
    if 0 < a.transactionHash.length then st.noTxCounter
    else st.noTxCounter + 1
  let key := groupKeyOf txKey a
  let size := |toNumber a.size 0|
  let usdcSize := |toNumber a.usdcSize 0|
  let price := toNumber a.price 0
  let timestamp := toNumber a.timestamp 0
  match findGroup st.groups key with
  | none =>
      { groups := st.groups ++ [(key, initGroupOf a)], noTxCounter := counter2 }
  | some existing =>
      match findActivityId a with
      | some i =>
          if i ∈ existing.seenIds then
            { groups := st.groups, noTxCounter := counter2 }
          else
            let g := updateExisting { existing with seenIds := i :: existing.seenIds }
                size usdcSize price timestamp
            { groups := setGroup st.groups key g, noTxCounter := counter2 }
      | none =>
          let g := updateExisting existing size usdcSize price timestamp
          { groups := setGroup st.groups key g, noTxCounter := counter2 }

/-- One aggregated output row: the spread of the group base overridden by
the computed aggregate fields. -/
structure AggregatedActivity where
  base : Activity
  size : ℚ
  usdcSize : ℚ
  price : ℚ
  timestamp : ℚ
  fillCount : ℕ
  minPrice : ℚ
  maxPrice : ℚ
  firstFillTimestamp : ℚ
  lastFillTimestamp : ℚ
  deriving DecidableEq

/-- Output construction for one finished group (source lines 151-170). -/
def finalizeGroup (g : FillGroup) : AggregatedActivity :=
  let sumSize := g.sumSize.value
  let sumUsdc := g.sumUsdc.value
  let averagePrice :=
    if 0 < sumSize then sumUsdc / sumSize else toNumber g.base.price 0
  let lastTs :=
    if g.lastFillTimestamp ≠ 0 then g.lastFillTimestamp
    else toNumber g.base.timestamp 0
  { base := g.base
    size := sumSize
    usdcSize := sumUsdc
    price := averagePrice
    timestamp := lastTs
    fillCount := g.fillCount
    minPrice := g.minPrice.getD (toNumber g.base.price 0)
    maxPrice := g.maxPrice.getD (toNumber g.base.price 0)
    firstFillTimestamp :=
      if g.firstFillTimestamp ≠ 0 then g.firstFillTimestamp
      else toNumber g.base.timestamp 0
    lastFillTimestamp := lastTs }

/-- Model of `aggregateTradeActivities`: fold the rows through the group
map, then emit one aggregated row per group in insertion order. -/
def aggregateTradeActivities (activities : List Activity) :
    List AggregatedActivity :=
  let final := activities.foldl processActivity { groups := [], noTxCounter := 0 }
  final.groups.map fun kg => finalizeGroup kg.2

/-! Leader election (`leaderService.ts`).  The Leader Store (MongoDB with a
partial unique index on `(conditionId, isActive)` and a unique index on
`initialTransactionHash`) is modelled as an explicit record list with an
atomic create that reports which unique index a conflicting insert hits. -/

/-- A candidate signal competing for leadership (`TradeCandidate`). -/
structure TradeCandidate where
  userAddress : String
  conditionId : String
  asset : String
  side : String
  usdcSize : ℚ
  timestamp : ℚ
  transactionHash : String
  slug : Option String
  title : Option String
  deriving DecidableEq, Inhabited

/-- One `MarketLeader` document. -/
structure MarketLeaderRecord where
  conditionId : String
  asset : String
  leaderAddress : String
  side : String
  initialTradeSize : ℚ
  initialTradeTimestamp : ℚ
  lastTradeTimestamp : ℚ
  initialTransactionHash : String
  isActive : Bool
  slug : Option String
  title : Option String
  deriving DecidableEq

/-- The Leader Store state: the stored `MarketLeader` documents. -/
structure LeaderStore where
  records : List MarketLeaderRecord
  deriving DecidableEq

/-- Model of `MarketLeader.findOne (conditionId, isActive := true)`. -/
def findActive (st : LeaderStore) (conditionId : String) :
    Option MarketLeaderRecord :=
  st.records.find? fun r => r.conditionId == conditionId && r.isActive

/-- Outcome of `MarketLeader.create`: success, or a duplicate-key rejection
naming the violated unique index (source inspects `keyPattern`). -/
inductive CreateOutcome where
  | created (st : LeaderStore)
  | dupConditionActive
  | dupTransactionHash
  deriving DecidableEq

/-- Atomic create against the store.  The partial unique index on
`(conditionId, isActive := true)` rejects the insert when an active record
for the same instrument exists (`establishLeader` only ever inserts active
records); the unique index on `initialTransactionHash` rejects a repeated
settlement reference. -/
def createLeader (st : LeaderStore) (r : MarketLeaderRecord) : CreateOutcome :=
  if st.records.any fun q => q.conditionId == r.conditionId && q.isActive then
    CreateOutcome.dupConditionActive
  else if st.records.any fun q =>
      q.initialTransactionHash == r.initialTransactionHash then
    CreateOutcome.dupTransactionHash
  else
    CreateOutcome.created ⟨st.records ++ [r]⟩

/-- The document `establishLeader` passes to `MarketLeader.create` for the
winning candidate (the schema lower-cases `leaderAddress`). -/
def leaderRecordOfCandidate (c : TradeCandidate) : MarketLeaderRecord :=
  { conditionId := c.conditionId
    asset := c.asset
    leaderAddress := c.userAddress.toLower
    side := c.side
    initialTradeSize := c.usdcSize
    initialTradeTimestamp := c.timestamp
    lastTradeTimestamp := c.timestamp
    initialTransactionHash := c.transactionHash
    isActive := true
    slug := c.slug
    title := c.title }

/-- Re-packaging of an existing leader document as the returned winner
(duplicate-key branch of `establishLeader`). -/
def candidateOfLeader (l : MarketLeaderRecord) : TradeCandidate :=
  { userAddress := l.leaderAddress
    conditionId := l.conditionId
    asset := l.asset
    side := l.side
    usdcSize := l.initialTradeSize
    timestamp := l.initialTradeTimestamp
    transactionHash := l.initialTransactionHash
    slug := l.slug
    title := l.title }

/-- Comparison used by `establishLeader`: the JS comparator
`(a, b) => b.usdcSize - a.usdcSize` sorts by descending notional. -/
def usdcGE (a b : TradeCandidate) : Prop := b.usdcSize ≤ a.usdcSize

instance : DecidableRel usdcGE := fun a b =>
  inferInstanceAs (Decidable (b.usdcSize ≤ a.usdcSize))

instance : IsTotal TradeCandidate usdcGE :=
  ⟨fun a b => le_total b.usdcSize a.usdcSize⟩

instance : IsTrans TradeCandidate usdcGE :=
  ⟨fun _ _ _ h h2 => le_trans h2 h⟩

/-- First element of the descending-notional stable sort of the BUY
candidates (`sortedCandidates[0]`).  JS `Array.prototype.sort` is a stable
sort, so a stable insertion sort over the induced preorder models it. -/
def selectWinner (buyCandidates : List TradeCandidate) : TradeCandidate :=
  (List.insertionSort usdcGE buyCandidates).headI

/-- Create-and-handle tail of `establishLeader` (source lines 73-156):
attempt the atomic create; on a duplicate-key rejection re-read the active
leader and return it as the winner, the store left as it was. -/
def attemptEstablish (st : LeaderStore) (winner : TradeCandidate) :
    Option TradeCandidate × LeaderStore :=
  match createLeader st (leaderRecordOfCandidate winner) with
  | CreateOutcome.created st2 => (some winner, st2)
  | CreateOutcome.dupConditionActive =>
      match findActive st winner.conditionId with
      | some existingLeader => (some (candidateOfLeader existingLeader), st)
      | none => (none, st)
  | CreateOutcome.dupTransactionHash =>
      match findActive st winner.conditionId with
      | some existingLeader => (some (candidateOfLeader existingLeader), st)
      | none => (none, st)

/-- Model of `establishLeader`: keep only BUY candidates; with none, answer
nothing and leave the store untouched; otherwise create for the
largest-notional candidate. -/
def establishLeader (st : LeaderStore) (candidates : List TradeCandidate) :
    Option TradeCandidate × LeaderStore :=
  match candidates.filter (fun c => c.side == "BUY") with
  | [] => (none, st)
  | b :: bs => attemptEstablish st (selectWinner (b :: bs))

/-! Trade router (`tradeExecutor.ts`): the per-window ordering of the
leader account's accepted trades. -/

/-- One pending trade row with its source account (`TradeWithUser`).  The
activity interface declares `usdcSize` and `price` as numbers; `timestamp`
is defensively type-checked by the source, hence optional here. -/
structure TradeWithUser where
  _id : String
  userAddress : String
  conditionId : String
  asset : String
  side : String
  usdcSize : ℚ
  price : ℚ
  timestamp : Option ℚ
  slug : Option String
  eventSlug : Option String
  title : Option String
  deriving DecidableEq

/-- Model of `getTradeTimestamp`: the timestamp when it is a number, 0
otherwise. -/
def getTradeTimestamp (t : TradeWithUser) : ℚ :=
  t.timestamp.getD 0

/-- Model of the `sortTradesBySide` comparator: BUY sorts before anything
else, otherwise the two rows tie. -/
def sortTradesBySide (a b : TradeWithUser) : Int :=
  if a.side = b.side then 0
  else if a.side = "BUY" then -1
  else if b.side = "BUY" then 1
  else 0

/-- Model of the `sortLeaderTrades` comparator: ascending timestamp, then
side (BUY first), then descending notional.  (`usdcSize || 0` is the
identity on rationals.) -/
def sortLeaderTrades (a b : TradeWithUser) : ℚ :=
  if getTradeTimestamp a ≠ getTradeTimestamp b then
    getTradeTimestamp a - getTradeTimestamp b
  else if sortTradesBySide a b ≠ 0 then (sortTradesBySide a b : ℚ)
  else b.usdcSize - a.usdcSize

/-- Order induced by the `sortLeaderTrades` comparator, as used by the JS
stable sort: `a` may stay before `b` iff the comparator is non-positive. -/
def leaderLE (a b : TradeWithUser) : Prop := sortLeaderTrades a b ≤ 0

instance : DecidableRel leaderLE := fun a b =>
  inferInstanceAs (Decidable (sortLeaderTrades a b ≤ 0))

/-- Side rank: BUY counts as 0, every other side as 1.  The comparator
`sortTradesBySide` compares exactly these ranks. -/
def sideRank (t : TradeWithUser) : ℕ :=
  if t.side = "BUY" then 0 else 1

/-- The leader-account trades of one election window in the order the
router accepts them (source lines 242-244): filter to the leader account,
stable-sorted by `sortLeaderTrades`. -/
def acceptedLeaderTrades (sameTimeTrades : List TradeWithUser)
    (leaderAddress : String) : List TradeWithUser :=
  List.insertionSort leaderLE
    (sameTimeTrades.filter fun t => t.userAddress.toLower == leaderAddress)

/-! Aggregation buffer (`tradeExecutor.ts`): `addToAggregationBuffer` and
the periodic scan `getReadyAggregatedTrades`.  The process-local
`tradeAggregationBuffer` map is passed explicitly; `Date.now()` is the
explicit `now` argument; the active-leader lookup is the explicit
`leaderOf` argument. -/

/-- Polymarket minimum order notional (`TRADE_AGGREGATION_MIN_TOTAL_USD`). -/
def TRADE_AGGREGATION_MIN_TOTAL_USD : ℚ := 1

/-- One pending aggregation entry (`AggregatedTrade`). -/
structure AggregatedTrade where
  userAddress : String
  conditionId : String
  asset : String
  side : String
  slug : Option String
  eventSlug : Option String
  trades : List TradeWithUser
  totalUsdcSize : ℚ
  averagePrice : ℚ
  firstTradeTime : ℚ
  lastTradeTime : ℚ
  deriving DecidableEq

/-- Model of `getAggregationKey`. -/
def getAggregationKey (t : TradeWithUser) : String :=
  t.userAddress ++ ":" ++ t.conditionId ++ ":" ++ t.asset ++ ":" ++ t.side

/-- Lookup in the buffer map (JS `Map.get`). -/
def findAgg : List (String × AggregatedTrade) → String → Option AggregatedTrade
  | [], _ => none
  | (k, a) :: rest, key => if k = key then some a else findAgg rest key

/-- In-place update of one buffer key (JS `Map.set` on an existing key). -/
def setAgg : List (String × AggregatedTrade) → String → AggregatedTrade →
    List (String × AggregatedTrade)
  | [], _, _ => []
  | (k, a) :: rest, key, a2 =>
      if k = key then (key, a2) :: rest else (k, a) :: setAgg rest key a2

/-- Model of `addToAggregationBuffer`: redelivery of an already-buffered
trade id is ignored; a new trade either extends the matching entry
(recomputing the weighted average price) or opens a fresh entry. -/
def addToAggregationBuffer (trade : TradeWithUser) (now : ℚ)
    (buffer : List (String × AggregatedTrade)) :
    List (String × AggregatedTrade) :=
  let key := getAggregationKey trade
  match findAgg buffer key with
  | some existing =>
      if existing.trades.any fun t => t._id == trade._id then buffer
      else
        let trades2 := existing.trades ++ [trade]
        let total2 := existing.totalUsdcSize + trade.usdcSize
        let totalValue := (trades2.map fun t => t.usdcSize * t.price).sum
        setAgg buffer key
          { existing with
            trades := trades2
            totalUsdcSize := total2
            averagePrice := totalValue / total2
            lastTradeTime := now }
  | none =>
      buffer ++ [(key,
        { userAddress := trade.userAddress
          conditionId := trade.conditionId
          asset := trade.asset
          side := if trade.side = "" then "BUY" else trade.side
          slug := trade.slug
          eventSlug := trade.eventSlug
          trades := [trade]
          totalUsdcSize := trade.usdcSize
          averagePrice := trade.price
          firstTradeTime := now
          lastTradeTime := now })]

/-- Decision taken by one pass of `getReadyAggregatedTrades` for one buffer
entry. -/
inductive ScanOutcome where
  | keep
  | dropLeaderChange
  | ready
  | dropBelowMinimum
  deriving DecidableEq

/-- Per-entry decision of the periodic scan (source lines 342-379): the
leader check runs first on every pass; the window check and the minimum
check apply afterwards. -/
def scanEntry (leaderOf : String → Option String) (now windowMs : ℚ)
    (agg : AggregatedTrade) : ScanOutcome :=
  let leaderAddress := leaderOf agg.conditionId
  let aggLeader := agg.userAddress.toLower
  if leaderAddress = none ∨ leaderAddress ≠ some aggLeader then
    ScanOutcome.dropLeaderChange
  else if windowMs ≤ now - agg.firstTradeTime then
    if TRADE_AGGREGATION_MIN_TOTAL_USD ≤ agg.totalUsdcSize then
      ScanOutcome.ready
    else ScanOutcome.dropBelowMinimum
  else ScanOutcome.keep

/-- Model of `getReadyAggregatedTrades`: the released entries and the
buffer that survives the pass (entries are removed in every non-keep
case). -/
def getReadyAggregatedTrades (leaderOf : String → Option String)
    (now windowMs : ℚ) (buffer : List (String × AggregatedTrade)) :
    List AggregatedTrade × List (String × AggregatedTrade) :=
  ((buffer.filter fun kv =>
      scanEntry leaderOf now windowMs kv.2 = ScanOutcome.ready).map
        fun kv => kv.2,
   buffer.filter fun kv =>
      scanEntry leaderOf now windowMs kv.2 = ScanOutcome.keep)

/-! Sizing engine.  The file `src/config/copyStrategy.ts` is not part of
the provided sources (only its test suite is), so the engine is modelled
from the specification. -/

/-- Modelled from the spec: the three mutually exclusive sizing strategies
of the missing `copyStrategy.ts` (`CopyStrategy`). -/
inductive CopyStrategy where
  | PERCENTAGE
  | FIXED
  | ADAPTIVE
  deriving DecidableEq

/-- Modelled from the spec: one parsed tier `min-max:multiplier`, with
`max = none` for an open-ended `min+:multiplier` segment. -/
structure TierMultiplier where
  min : ℚ
  max : Option ℚ
  multiplier : ℚ
  deriving DecidableEq

/-- Modelled from the spec: the sizing configuration surface of the
missing `copyStrategy.ts` (`CopyStrategyConfig`). -/
structure CopyStrategyConfig where
  strategy : CopyStrategy
  copySize : ℚ
  maxOrderSizeUSD : ℚ
  minOrderSizeUSD : ℚ
  maxPositionSizeUSD : Option ℚ
  tradeMultiplier : Option ℚ
  tieredMultipliers : List TierMultiplier
  deriving DecidableEq

/-- Modelled from the spec: the result record of `calculateOrderSize`
(the human-readable `reasoning` string is omitted; no claim concerns it). -/
structure SizingResult where
  baseAmount : ℚ
  finalAmount : ℚ
  strategy : CopyStrategy
  cappedByMax : Bool
  belowMinimum : Bool
  reducedByBalance : Bool
  deriving DecidableEq

/-- Modelled from the spec: `getTradeMultiplier` of the missing
`copyStrategy.ts` — tiered lookup over `[min, max)` ranges (tiers take
precedence over the single scalar; 1 with neither), matching the recorded
test vectors. -/
def getTradeMultiplier (config : CopyStrategyConfig) (amount : ℚ) : ℚ :=
  match config.tieredMultipliers with
  | [] => config.tradeMultiplier.getD 1
  | t :: ts =>
      match (t :: ts).find? fun tier =>
          decide (tier.min ≤ amount) &&
            (match tier.max with
             | none => true
             | some m => decide (amount < m)) with
      | some tier => tier.multiplier
      | none => 1

/-- Modelled from the spec: the base amount of `calculateOrderSize` before
clamps.  The ADAPTIVE curve is explicitly "a tunable parameter, not a
fixed law", so it is passed in as `curve`. -/
def baseAmountOf (curve : ℚ → ℚ) (config : CopyStrategyConfig)
    (signalNotional : ℚ) : ℚ :=
  match config.strategy with
  | CopyStrategy.PERCENTAGE => signalNotional * config.copySize / 100
  | CopyStrategy.FIXED => config.copySize
  | CopyStrategy.ADAPTIVE => curve signalNotional

/-- Modelled from the spec: the amount after the multiplier, the
`[0, maxOrderSizeUSD]` clamp and the position-headroom reduction (steps
1-3 of `calculateOrderSize`). -/
def amountAfterClamps (curve : ℚ → ℚ) (config : CopyStrategyConfig)
    (signalNotional currentPositionNotional : ℚ) : ℚ :=
  let amount1 :=
    baseAmountOf curve config signalNotional *
      getTradeMultiplier config signalNotional
  let amount2 := min config.maxOrderSizeUSD (max 0 amount1)
  match config.maxPositionSizeUSD with
  | some maxPos =>
      if maxPos < currentPositionNotional + amount2 then
        max 0 (maxPos - currentPositionNotional)
      else amount2
  | none => amount2

/-- Modelled from the spec: `calculateOrderSize` of the missing
`copyStrategy.ts` — strategy base, multiplier, max clamp, position
headroom, minimum bump/zeroing against the 0.99 balance buffer, and the
final balance ceiling. -/
def calculateOrderSize (curve : ℚ → ℚ) (config : CopyStrategyConfig)
    (signalNotional availableBalance currentPositionNotional : ℚ) :
    SizingResult :=
  let base := baseAmountOf curve config signalNotional
  let amount1 := base * getTradeMultiplier config signalNotional
  let amount3 := amountAfterClamps curve config signalNotional
    currentPositionNotional
  let belowMin := amount3 < config.minOrderSizeUSD
  let amount4 :=
    if belowMin then
      if config.minOrderSizeUSD ≤ availableBalance * (99 / 100) then
        config.minOrderSizeUSD
      else 0
    else amount3
  let reduced := availableBalance * (99 / 100) < amount4
  let amount5 := if reduced then availableBalance * (99 / 100) else amount4
  { baseAmount := base
    finalAmount := amount5
    strategy := config.strategy
    cappedByMax := decide (config.maxOrderSizeUSD < amount1)
    belowMinimum := decide belowMin
    reducedByBalance := decide reduced }

/-! Slippage policy (`buySlippagePolicy.ts`). -/

/-- The zone thresholds of `getBuyDecision`; the source takes a partial
config and fills these defaults with `??`. -/
structure BuySlippageConfig where
  deathZonePrice : ℚ
  highZoneMin : ℚ
  highZoneAbsSlippage : ℚ
  combatZoneMin : ℚ
  combatZoneAbsSlippage : ℚ
  zebraZoneMaxMultiplier : ℚ
  absoluteMaxAcceptablePriceCap : ℚ
  deriving DecidableEq

/-- The default thresholds of `getBuyDecision`. -/
def defaultBuySlippageConfig : BuySlippageConfig :=
  { deathZonePrice := 95 / 100
    highZoneMin := 8 / 10
    highZoneAbsSlippage := 1 / 100
    combatZoneMin := 2 / 10
    combatZoneAbsSlippage := 3 / 100
    zebraZoneMaxMultiplier := 12 / 10
    absoluteMaxAcceptablePriceCap := 99 / 100 }

/-- The decision record of `getBuyDecision` (`BuyDecision`): on rejection
the cap is absent. -/
structure BuyDecision where
  shouldBuy : Bool
  maxAcceptablePrice : Option ℚ
  deriving DecidableEq

/-- Model of the inner `capMax`: a non-positive ceiling disables the clamp
(the non-finite case cannot arise in `ℚ`). -/
def capMax (cfg : BuySlippageConfig) (value : ℚ) : ℚ :=
  if cfg.absoluteMaxAcceptablePriceCap ≤ 0 then value
  else min value cfg.absoluteMaxAcceptablePriceCap

/-- Model of `getBuyDecision`.  `Number(originalExecutedPrice)` yields a
finite double or not; the input is `none` exactly when it is not finite. -/
def getBuyDecision (cfg : BuySlippageConfig) (originalExecutedPrice : Option ℚ) :
    BuyDecision :=
  match originalExecutedPrice with
  | none => { shouldBuy := false, maxAcceptablePrice := none }
  | some priceNum =>
      if priceNum ≤ 0 then { shouldBuy := false, maxAcceptablePrice := none }
      else if cfg.deathZonePrice < priceNum then
        { shouldBuy := false, maxAcceptablePrice := none }
      else if cfg.highZoneMin ≤ priceNum then
        { shouldBuy := true
          maxAcceptablePrice := some (capMax cfg (priceNum + cfg.highZoneAbsSlippage)) }
      else if cfg.combatZoneMin ≤ priceNum then
        { shouldBuy := true
          maxAcceptablePrice := some (capMax cfg (priceNum + cfg.combatZoneAbsSlippage)) }
      else
        { shouldBuy := true
          maxAcceptablePrice := some (capMax cfg (priceNum * cfg.zebraZoneMaxMultiplier)) }

/-- No two rows of the batch carry the same explicit fill identifier. -/
def DistinctFillIds (l : List Activity) : Prop :=
  l.Pairwise fun x y =>
    findActivityId x = none ∨ findActivityId x ≠ findActivityId y

instance (l : List Activity) : Decidable (DistinctFillIds l) := by
  unfold DistinctFillIds
  infer_instance

/-! Concrete inputs used by counterexamples and witnesses. -/

/-- Convenience constructor: a raw activity row whose only id alias is the
`id` field. -/
def mkActivity (tx cond asset side ty : String)
    (size usdcSize price timestamp : Option ℚ) (fid : Option String) :
    Activity :=
  { transactionHash := tx, conditionId := cond, asset := asset, side := side,
    type := ty, size := size, usdcSize := usdcSize, price := price,
    timestamp := timestamp, id := fid, tradeId := none, trade_id := none,
    matchId := none, match_id := none, logIndex := none, log_index := none }

/-- Two fills of one settlement sharing the explicit fill id "x". -/
def dupIdFillA : Activity :=
  mkActivity "0xt" "cond" "tok" "BUY" "TRADE" (some 1) (some 1) (some 1)
    (some 1) (some "x")

/-- Second fill with the same id "x" but a different size. -/
def dupIdFillB : Activity :=
  mkActivity "0xt" "cond" "tok" "BUY" "TRADE" (some 2) (some 2) (some 1)
    (some 2) (some "x")

/-- Two distinct fills of one settlement (the repository's own unit-test
vector). -/
def plainFillA : Activity :=
  mkActivity "0xabc" "0xcond" "token" "BUY" "TRADE" (some 10) (some 5)
    (some (1 / 2)) (some 100) none

/-- Second unit-test fill. -/
def plainFillB : Activity :=
  mkActivity "0xabc" "0xcond" "token" "BUY" "TRADE" (some 20) (some 5)
    (some (1 / 4)) (some 101) none

/-- A size-less fill carrying price 3/10, first row of its group. -/
def zeroSizeFillFirst : Activity :=
  mkActivity "0xz" "cond" "tok" "BUY" "TRADE" none none (some (3 / 10))
    (some 1) none

/-- A size-less fill carrying price 7/10, last row of the same group. -/
def zeroSizeFillLast : Activity :=
  mkActivity "0xz" "cond" "tok" "BUY" "TRADE" none none (some (7 / 10))
    (some 2) none

/-- Id-less fill used by the both-counted half of the dedup claim. -/
def noIdFillA : Activity :=
  mkActivity "0xn" "cond" "tok" "BUY" "TRADE" (some 10) (some 5)
    (some (1 / 2)) (some 300) none

/-- Identical id-less fill. -/
def noIdFillB : Activity :=
  mkActivity "0xn" "cond" "tok" "BUY" "TRADE" (some 10) (some 5)
    (some (1 / 2)) (some 300) none

/-- BUY candidate with notional 50. -/
def candSmall : TradeCandidate :=
  { userAddress := "0xAAA", conditionId := "c1", asset := "t1", side := "BUY",
    usdcSize := 50, timestamp := 10, transactionHash := "0x1", slug := none,
    title := none }

/-- BUY candidate with notional 200. -/
def candBig : TradeCandidate :=
  { userAddress := "0xBBB", conditionId := "c1", asset := "t1", side := "BUY",
    usdcSize := 200, timestamp := 10, transactionHash := "0x2", slug := none,
    title := none }

/-- SELL candidate (cannot found leadership). -/
def candSell : TradeCandidate :=
  { userAddress := "0xCCC", conditionId := "c1", asset := "t1", side := "SELL",
    usdcSize := 500, timestamp := 10, transactionHash := "0x3", slug := none,
    title := none }

/-- Store with no documents. -/
def emptyStore : LeaderStore := ⟨[]⟩

/-- An active leader document for instrument "c1" held by a concurrent
winner. -/
def concurrentWinnerRecord : MarketLeaderRecord :=
  { conditionId := "c1", asset := "t1", leaderAddress := "0xddd",
    side := "BUY", initialTradeSize := 75, initialTradeTimestamp := 5,
    lastTradeTimestamp := 5, initialTransactionHash := "0x9",
    isActive := true, slug := none, title := none }

/-- Store already holding the concurrent winner's active record. -/
def storeWithLeader : LeaderStore := ⟨[concurrentWinnerRecord]⟩

/-- Convenience constructor for router/buffer trades. -/
def mkTrade (mid user cond asset side : String) (usdcSize price : ℚ)
    (timestamp : Option ℚ) : TradeWithUser :=
  { _id := mid, userAddress := user, conditionId := cond, asset := asset,
    side := side, usdcSize := usdcSize, price := price,
    timestamp := timestamp, slug := none, eventSlug := none, title := none }

/-- The active leader's address, lower-cased the way the router reads it
from the store record. -/
def leadAddr : String := "0xlead".toLower

/-- Leader SELL trade at the start of an election window. -/
def sellEarly : TradeWithUser :=
  mkTrade "s1" "0xlead" "c1" "t1" "SELL" 5 (1 / 2) (some 0)

/-- Leader BUY trade one second later, inside the same window. -/
def buyLate : TradeWithUser :=
  mkTrade "b1" "0xlead" "c1" "t1" "BUY" 5 (1 / 2) (some 1)

/-- A buffered sub-minimum BUY trade. -/
def bufferedTrade : TradeWithUser :=
  mkTrade "m1" "0xacc" "c1" "t1" "BUY" (1 / 2) (1 / 2) (some 100)

/-- The pending aggregation entry holding `bufferedTrade`, window started
at time 0. -/
def pendingEntry : AggregatedTrade :=
  { userAddress := "0xacc", conditionId := "c1", asset := "t1", side := "BUY",
    slug := none, eventSlug := none, trades := [bufferedTrade],
    totalUsdcSize := 1 / 2, averagePrice := 1 / 2, firstTradeTime := 0,
    lastTradeTime := 0 }

/-- The buffer holding exactly `pendingEntry`. -/
def singletonBuffer : List (String × AggregatedTrade) :=
  [(getAggregationKey bufferedTrade, pendingEntry)]

/-- The base sizing configuration of the recorded test vectors:
PERCENTAGE, copySize 10, max 100, min 1. -/
def baseSizingConfig : CopyStrategyConfig :=
  { strategy := CopyStrategy.PERCENTAGE, copySize := 10,
    maxOrderSizeUSD := 100, minOrderSizeUSD := 1, maxPositionSizeUSD := none,
    tradeMultiplier := none, tieredMultipliers := [] }

/-! Helper lemmas. -/

/-- A non-empty string has positive length. -/
theorem length_pos_of_ne_empty (s : String) (h : s ≠ "") : 0 < s.length := by
  cases s with
  | mk data =>
    cases data with
    | nil => simp at h
    | cons c cs => simp [String.length]

/-- With a zero compensation term, one compensated add is an exact add. -/
theorem KahanSum.add_sum_of_c_eq_zero (k : KahanSum) (v : ℚ) (h : k.c = 0) :
    (k.add v).sum = k.sum + v := by
  unfold KahanSum.add
  split
  · simp_all
  · simp [h]

/-- With a zero compensation term, the compensation stays zero: over exact
arithmetic the Kahan accumulator is the plain sum. -/
theorem KahanSum.add_c_of_c_eq_zero (k : KahanSum) (v : ℚ) (h : k.c = 0) :
    (k.add v).c = 0 := by
  unfold KahanSum.add
  split
  · exact h
  · simp [h]

/-- Fields of the freshly created group. -/
theorem initGroupOf_sumSize (a : Activity) :
    (initGroupOf a).sumSize.sum = |toNumber a.size 0| ∧
      (initGroupOf a).sumSize.c = 0 := by
  constructor
  · rw [show (initGroupOf a).sumSize = KahanSum.empty.add |toNumber a.size 0| from rfl,
      KahanSum.add_sum_of_c_eq_zero _ _ rfl]
    simp [KahanSum.empty]
  · exact KahanSum.add_c_of_c_eq_zero _ _ rfl

/-- Usdc accumulator of the freshly created group. -/
theorem initGroupOf_sumUsdc (a : Activity) :
    (initGroupOf a).sumUsdc.sum = |toNumber a.usdcSize 0| ∧
      (initGroupOf a).sumUsdc.c = 0 := by
  constructor
  · rw [show (initGroupOf a).sumUsdc = KahanSum.empty.add |toNumber a.usdcSize 0| from rfl,
      KahanSum.add_sum_of_c_eq_zero _ _ rfl]
    simp [KahanSum.empty]
  · exact KahanSum.add_c_of_c_eq_zero _ _ rfl

/-- Seen ids of the freshly created group. -/
theorem initGroupOf_seenIds (a : Activity) (j : String) :
    j ∈ (initGroupOf a).seenIds ↔ findActivityId a = some j := by
  show j ∈ (match findActivityId a with
    | some i => [i]
    | none => ([] : List String)) ↔ _
  cases h : findActivityId a with
  | none => simp
  | some i => simp [eq_comm]

/-- Processing one more row of an existing single-key group: the row is
either deduplicated away (state untouched) or folded into the group. -/
theorem processActivity_same_key (k : String) (g : FillGroup) (n : ℕ)
    (a : Activity) (htx : 0 < a.transactionHash.length)
    (hkey : groupKeyOf a.transactionHash a = k)
    (hid : ∀ i, findActivityId a = some i → i ∉ g.seenIds) :
    ∃ g2 : FillGroup,
      processActivity ⟨[(k, g)], n⟩ a = ⟨[(k, g2)], n⟩ ∧
      g2.sumSize = g.sumSize.add |toNumber a.size 0| ∧
      g2.sumUsdc = g.sumUsdc.add |toNumber a.usdcSize 0| ∧
      g2.fillCount = g.fillCount + 1 ∧
      g2.base = g.base ∧
      (∀ j, j ∈ g2.seenIds ↔ (findActivityId a = some j ∨ j ∈ g.seenIds)) := by
  unfold processActivity
  simp only [htx, if_pos, hkey, findGroup, if_pos rfl]
  cases hfa : findActivityId a with
  | none =>
      refine ⟨updateExisting g |toNumber a.size 0| |toNumber a.usdcSize 0|
        (toNumber a.price 0) (toNumber a.timestamp 0), ?_, rfl, rfl, rfl, rfl, ?_⟩
      · simp [setGroup]
      · intro j
        simp [updateExisting]
  | some i =>
      have hi : i ∉ g.seenIds := hid i hfa
      simp only [if_neg hi]
      refine ⟨updateExisting { g with seenIds := i :: g.seenIds }
        |toNumber a.size 0| |toNumber a.usdcSize 0|
        (toNumber a.price 0) (toNumber a.timestamp 0), ?_, rfl, rfl, rfl, rfl, ?_⟩
      · simp [setGroup]
      · intro j
        simp [updateExisting, eq_comm]

/-- A row whose explicit id was already seen in its group is dropped: the
whole state is left untouched. -/
theorem processActivity_dedup (k : String) (g : FillGroup) (n : ℕ)
    (a : Activity) (i : String) (htx : 0 < a.transactionHash.length)
    (hkey : groupKeyOf a.transactionHash a = k)
    (hfa : findActivityId a = some i) (hi : i ∈ g.seenIds) :
    processActivity ⟨[(k, g)], n⟩ a = ⟨[(k, g)], n⟩ := by
  unfold processActivity
  simp only [htx, if_pos, hkey, findGroup, if_pos rfl, hfa]
  simp [hi]

/-- Folding a list of rows that all target one existing group key, with no
row's id already seen and all ids pairwise distinct: the single group
accumulates the exact sums and the fill count. -/
theorem foldl_single_group (l : List Activity) (k : String) (g : FillGroup)
    (n : ℕ)
    (hl : ∀ a ∈ l, 0 < a.transactionHash.length ∧
      groupKeyOf a.transactionHash a = k)
    (hnew : ∀ a ∈ l, ∀ i, findActivityId a = some i → i ∉ g.seenIds)
    (hdist : l.Pairwise fun x y =>
      ∀ i, findActivityId x = some i → findActivityId y ≠ some i)
    (hc : g.sumSize.c = 0) (hc2 : g.sumUsdc.c = 0) :
    ∃ g2 : FillGroup,
      l.foldl processActivity ⟨[(k, g)], n⟩ = ⟨[(k, g2)], n⟩ ∧
      g2.sumSize.sum = g.sumSize.sum + (l.map fun a => |toNumber a.size 0|).sum ∧
      g2.sumUsdc.sum = g.sumUsdc.sum + (l.map fun a => |toNumber a.usdcSize 0|).sum ∧
      g2.fillCount = g.fillCount + l.length ∧
      g2.base = g.base := by
  induction l generalizing g with
  | nil => exact ⟨g, rfl, by simp, by simp, by simp, rfl⟩
  | cons a l ih =>
      obtain ⟨htx, hkey⟩ := hl a (List.mem_cons_self a l)
      obtain ⟨g1, hstep, hsz, hus, hfc, hbase, hseen⟩ :=
        processActivity_same_key k g n a htx hkey
          (fun i hi => hnew a (List.mem_cons_self a l) i hi)
      have hdist2 := List.pairwise_cons.mp hdist
      have hc1 : g1.sumSize.c = 0 := by
        rw [hsz]; exact KahanSum.add_c_of_c_eq_zero _ _ hc
      have hc12 : g1.sumUsdc.c = 0 := by
        rw [hus]; exact KahanSum.add_c_of_c_eq_zero _ _ hc2
      obtain ⟨g2, hfold, hs2, hu2, hf2, hb2⟩ := ih g1
        (fun b hb => hl b (List.mem_cons_of_mem a hb))
        (fun b hb i hi => by
          rw [hseen i]
          rintro (h1 | h1)
          · exact hdist2.1 b hb i h1 hi
          · exact hnew b (List.mem_cons_of_mem a hb) i hi h1)
        hdist2.2 hc1 hc12
      refine ⟨g2, ?_, ?_, ?_, ?_, hb2.trans hbase⟩
      · rw [List.foldl_cons, hstep, hfold]
      · rw [hs2, hsz, KahanSum.add_sum_of_c_eq_zero _ _ hc]
        simp [KahanSum.value]
        ring
      · rw [hu2, hus, KahanSum.add_sum_of_c_eq_zero _ _ hc2]
        simp [KahanSum.value]
        ring
      · rw [hf2, hfc]
        simp
        omega

/-- Reformulation of `DistinctFillIds` used by the fold lemma. -/
theorem distinctFillIds_pairwise (l : List Activity) (h : DistinctFillIds l) :
    l.Pairwise fun x y =>
      ∀ i, findActivityId x = some i → findActivityId y ≠ some i := by
  refine h.imp ?_
  rintro x y (hxy | hxy) i hxi hyi
  · rw [hxy] at hxi
    exact Option.noConfusion hxi
  · rw [hxi, hyi] at hxy
    exact hxy rfl

/-- Projections of `finalizeGroup`. -/
theorem finalizeGroup_size (g : FillGroup) :
    (finalizeGroup g).size = g.sumSize.sum := rfl

/-- Notional projection of `finalizeGroup`. -/
theorem finalizeGroup_usdcSize (g : FillGroup) :
    (finalizeGroup g).usdcSize = g.sumUsdc.sum := rfl

/-- Price projection of `finalizeGroup`. -/
theorem finalizeGroup_price (g : FillGroup) :
    (finalizeGroup g).price =
      if 0 < g.sumSize.sum then g.sumUsdc.sum / g.sumSize.sum
      else toNumber g.base.price 0 := rfl

/-- Fill-count projection of `finalizeGroup`. -/
theorem finalizeGroup_fillCount (g : FillGroup) :
    (finalizeGroup g).fillCount = g.fillCount := rfl

/-- The first row of a batch whose settlement reference is present opens a
fresh group under its settlement key. -/
theorem processActivity_start (a : Activity)
    (htx : 0 < a.transactionHash.length) :
    processActivity ⟨[], 0⟩ a =
      ⟨[(groupKeyOf a.transactionHash a, initGroupOf a)], 0⟩ := by
  unfold processActivity
  simp [htx, findGroup]

/-- Common core for the batch claims: a non-empty batch sharing one
present settlement key, with pairwise distinct explicit ids, ends in a
single group with the exact sums. -/
theorem aggregate_single_group_core (a : Activity) (rest : List Activity)
    (htx : a.transactionHash ≠ "")
    (hsame : ∀ b ∈ a :: rest, b.transactionHash = a.transactionHash ∧
      b.conditionId = a.conditionId ∧ b.asset = a.asset ∧
      b.side = a.side ∧ b.type = a.type)
    (hdist : DistinctFillIds (a :: rest)) :
    ∃ g2 : FillGroup,
      aggregateTradeActivities (a :: rest) = [finalizeGroup g2] ∧
      g2.sumSize.sum = ((a :: rest).map fun b => |toNumber b.size 0|).sum ∧
      g2.sumUsdc.sum = ((a :: rest).map fun b => |toNumber b.usdcSize 0|).sum ∧
      g2.fillCount = rest.length + 1 ∧
      g2.base = a := by
  have htxlen : 0 < a.transactionHash.length := length_pos_of_ne_empty _ htx
  have hpair := distinctFillIds_pairwise _ hdist
  have hpair2 := List.pairwise_cons.mp hpair
  obtain ⟨g2, hfold, hs, hu, hf, hb⟩ :=
    foldl_single_group rest (groupKeyOf a.transactionHash a) (initGroupOf a) 0
      (fun b hb => by
        obtain ⟨h1, h2, h3, h4, h5⟩ := hsame b (List.mem_cons_of_mem a hb)
        constructor
        · rw [h1]; exact htxlen
        · rw [groupKeyOf, groupKeyOf, h1, h2, h3, h4, h5])
      (fun b hb i hi => by
        rw [initGroupOf_seenIds]
        intro ha
        exact hpair2.1 b hb i ha hi)
      hpair2.2 (initGroupOf_sumSize a).2 (initGroupOf_sumUsdc a).2
  refine ⟨g2, ?_, ?_, ?_, ?_, ?_⟩
  · rw [aggregateTradeActivities]
    rw [List.foldl_cons, processActivity_start a htxlen, hfold]
    rfl
  · rw [hs, (initGroupOf_sumSize a).1]
    simp
  · rw [hu, (initGroupOf_sumUsdc a).1]
    simp
  · rw [hf]
    show 1 + rest.length = rest.length + 1
    omega
  · rw [hb]
    rfl

/-- C1 (amended): for every non-empty batch of raw signals that all share
one present settlement reference (transactionHash), instrument
(conditionId), sub-instrument (asset), side and kind (type), and in which
no two rows carry the same explicit fill identifier,
`aggregateTradeActivities` returns exactly one aggregated signal whose
size equals the sum of the absolute values of the input sizes, whose
usdcSize equals the sum of the absolute values of the input usdcSize
values (exactly, over exact arithmetic — the Kahan compensation is then
zero), and whose price times its size equals its usdcSize whenever
size > 0. -/
theorem aggregate_same_settlement_sums (a : Activity) (rest : List Activity)
    (htx : a.transactionHash ≠ "")
    (hsame : ∀ b ∈ a :: rest, b.transactionHash = a.transactionHash ∧
      b.conditionId = a.conditionId ∧ b.asset = a.asset ∧
      b.side = a.side ∧ b.type = a.type)
    (hdist : DistinctFillIds (a :: rest)) :
    ∃ out, aggregateTradeActivities (a :: rest) = [out] ∧
      out.size = ((a :: rest).map fun b => |toNumber b.size 0|).sum ∧
      out.usdcSize = ((a :: rest).map fun b => |toNumber b.usdcSize 0|).sum ∧
      (0 < out.size → out.price * out.size = out.usdcSize) := by
  obtain ⟨g2, hagg, hs, hu, _, _⟩ :=
    aggregate_single_group_core a rest htx hsame hdist
  refine ⟨finalizeGroup g2, hagg, ?_, ?_, ?_⟩
  · rw [finalizeGroup_size, hs]
  · rw [finalizeGroup_usdcSize, hu]
  · intro hpos
    rw [finalizeGroup_size] at hpos
    rw [finalizeGroup_price, finalizeGroup_size, finalizeGroup_usdcSize,
      if_pos hpos]
    exact div_mul_cancel₀ _ (ne_of_gt hpos)

/-- Witness for C1 (amended) at the repository's own unit-test vector. -/
theorem aggregate_same_settlement_sums_witness :
    ∃ out, aggregateTradeActivities [plainFillA, plainFillB] = [out] ∧
      out.size = (([plainFillA, plainFillB]).map fun b =>
        |toNumber b.size 0|).sum ∧
      out.usdcSize = (([plainFillA, plainFillB]).map fun b =>
        |toNumber b.usdcSize 0|).sum ∧
      (0 < out.size → out.price * out.size = out.usdcSize) :=
  aggregate_same_settlement_sums plainFillA [plainFillB] (by decide)
    (by decide) (by decide)

/-- C1 counterexample: two fills of one settlement share the explicit fill
id "x", so the second is deduplicated and the aggregated size is 1, not
the sum 3 of the absolute input sizes the claim predicts. -/
theorem aggregate_same_settlement_sums_counterexample :
    (aggregateTradeActivities [dupIdFillA, dupIdFillB]).map
        AggregatedActivity.size = [1] ∧
      (([dupIdFillA, dupIdFillB]).map fun b => |toNumber b.size 0|).sum = 3 ∧
      (1 : ℚ) ≠ 3 := by
  refine ⟨?_, ?_, by norm_num⟩
  · have h1 : processActivity ⟨[], 0⟩ dupIdFillA =
        ⟨[(groupKeyOf dupIdFillA.transactionHash dupIdFillA,
          initGroupOf dupIdFillA)], 0⟩ :=
      processActivity_start dupIdFillA (by decide)
    have h2 := processActivity_dedup
      (groupKeyOf dupIdFillA.transactionHash dupIdFillA)
      (initGroupOf dupIdFillA) 0 dupIdFillB "x" (by decide) rfl (by decide)
      (by decide)
    rw [aggregateTradeActivities, List.foldl_cons, h1, List.foldl_cons, h2]
    show [(finalizeGroup (initGroupOf dupIdFillA)).size] = [1]
    rw [finalizeGroup_size, (initGroupOf_sumSize dupIdFillA).1]
    norm_num [toNumber, dupIdFillA, mkActivity]
  · show |toNumber dupIdFillA.size 0| + (|toNumber dupIdFillB.size 0| + 0) = 3
    norm_num [toNumber, dupIdFillA, dupIdFillB, mkActivity]

/-- Adding an exact zero leaves the accumulator untouched. -/
theorem KahanSum.add_zero_eq (k : KahanSum) : k.add 0 = k := by
  unfold KahanSum.add
  simp

/-- Folding rows of one existing group key whose sizes all coerce to zero:
the size accumulator and the base row never change (whether or not any row
is deduplicated). -/
theorem foldl_single_group_zero (l : List Activity) (k : String)
    (g : FillGroup) (n : ℕ)
    (hl : ∀ a ∈ l, 0 < a.transactionHash.length ∧
      groupKeyOf a.transactionHash a = k)
    (hz : ∀ a ∈ l, toNumber a.size 0 = 0) :
    ∃ g2 : FillGroup,
      l.foldl processActivity ⟨[(k, g)], n⟩ = ⟨[(k, g2)], n⟩ ∧
      g2.sumSize = g.sumSize ∧ g2.base = g.base := by
  induction l generalizing g with
  | nil => exact ⟨g, rfl, rfl, rfl⟩
  | cons a l ih =>
      obtain ⟨htx, hkey⟩ := hl a (List.mem_cons_self a l)
      have hz0 : |toNumber a.size 0| = 0 := by
        rw [hz a (List.mem_cons_self a l)]
        simp
      have hmem : ∀ b ∈ l, 0 < b.transactionHash.length ∧
          groupKeyOf b.transactionHash b = k :=
        fun b hb => hl b (List.mem_cons_of_mem a hb)
      have hmemz : ∀ b ∈ l, toNumber b.size 0 = 0 :=
        fun b hb => hz b (List.mem_cons_of_mem a hb)
      by_cases hdup : ∃ i, findActivityId a = some i ∧ i ∈ g.seenIds
      · obtain ⟨i, hfa, hi⟩ := hdup
        obtain ⟨g2, hfold, hs2, hb2⟩ := ih g hmem hmemz
        exact ⟨g2, by
          rw [List.foldl_cons, processActivity_dedup k g n a i htx hkey hfa hi,
            hfold], hs2, hb2⟩
      · have hid : ∀ i, findActivityId a = some i → i ∉ g.seenIds := by
          intro i hfa hi
          exact hdup ⟨i, hfa, hi⟩
        obtain ⟨g1, hstep, hsz, _, _, hbase, _⟩ :=
          processActivity_same_key k g n a htx hkey hid
        have hsz1 : g1.sumSize = g.sumSize := by
          rw [hsz, hz0, KahanSum.add_zero_eq]
        obtain ⟨g2, hfold, hs2, hb2⟩ := ih g1 hmem hmemz
        refine ⟨g2, ?_, hs2.trans hsz1, hb2.trans hbase⟩
        rw [List.foldl_cons, hstep, hfold]

/-- C2 (amended): for every non-empty batch sharing one present settlement
reference, instrument, sub-instrument, side and kind, in which every
constituent size coerces to zero (missing, non-numeric, or zero), the
aggregated signal's summed size is zero and its price equals the price of
the group's FIRST raw fill (the group base kept from the first row
encountered), not the latest. -/
theorem aggregate_zero_size_price_first (a : Activity) (rest : List Activity)
    (htx : a.transactionHash ≠ "")
    (hsame : ∀ b ∈ a :: rest, b.transactionHash = a.transactionHash ∧
      b.conditionId = a.conditionId ∧ b.asset = a.asset ∧
      b.side = a.side ∧ b.type = a.type)
    (hz : ∀ b ∈ a :: rest, toNumber b.size 0 = 0) :
    ∃ out, aggregateTradeActivities (a :: rest) = [out] ∧
      out.size = 0 ∧ out.price = toNumber a.price 0 := by
  have htxlen : 0 < a.transactionHash.length := length_pos_of_ne_empty _ htx
  have hinit : (initGroupOf a).sumSize = KahanSum.empty := by
    show KahanSum.empty.add |toNumber a.size 0| = KahanSum.empty
    rw [hz a (List.mem_cons_self a rest)]
    simp [KahanSum.add_zero_eq]
  obtain ⟨g2, hfold, hs2, hb2⟩ := foldl_single_group_zero rest
    (groupKeyOf a.transactionHash a) (initGroupOf a) 0
    (fun b hb => by
      obtain ⟨h1, h2, h3, h4, h5⟩ := hsame b (List.mem_cons_of_mem a hb)
      constructor
      · rw [h1]; exact htxlen
      · rw [groupKeyOf, groupKeyOf, h1, h2, h3, h4, h5])
    (fun b hb => hz b (List.mem_cons_of_mem a hb))
  have hsz : g2.sumSize.sum = 0 := by
    rw [hs2, hinit]
    rfl
  refine ⟨finalizeGroup g2, ?_, ?_, ?_⟩
  · rw [aggregateTradeActivities, List.foldl_cons,
      processActivity_start a htxlen, hfold]
    rfl
  · rw [finalizeGroup_size, hsz]
  · rw [finalizeGroup_price, hsz, if_neg (lt_irrefl 0), hb2]
    rfl

/-- Witness for C2 (amended): two size-less fills with prices 3/10 then
7/10 aggregate to the first price. -/
theorem aggregate_zero_size_price_first_witness :
    ∃ out, aggregateTradeActivities [zeroSizeFillFirst, zeroSizeFillLast] =
        [out] ∧
      out.size = 0 ∧ out.price = toNumber zeroSizeFillFirst.price 0 :=
  aggregate_zero_size_price_first zeroSizeFillFirst [zeroSizeFillLast]
    (by decide) (by decide)
    (by
      intro b hb
      rcases List.mem_cons.mp hb with h | hb2
      · rw [h]; rfl
      rcases List.mem_cons.mp hb2 with h | hb3
      · rw [h]; rfl
      exact absurd hb3 (List.not_mem_nil b))

/-- C2 counterexample: in a two-fill group with zero summed size, the
output price is the first fill's price 3/10, not the latest raw price
7/10 the claim predicts. -/
theorem aggregate_zero_size_price_first_counterexample :
    (aggregateTradeActivities [zeroSizeFillFirst, zeroSizeFillLast]).map
        AggregatedActivity.size = [0] ∧
      (aggregateTradeActivities [zeroSizeFillFirst, zeroSizeFillLast]).map
        AggregatedActivity.price = [3 / 10] ∧
      toNumber zeroSizeFillLast.price 0 = 7 / 10 ∧
      ((3 : ℚ) / 10) ≠ 7 / 10 := by
  have hid : ∀ i, findActivityId zeroSizeFillLast = some i →
      i ∉ (initGroupOf zeroSizeFillFirst).seenIds := by
    intro i hi
    rw [show findActivityId zeroSizeFillLast = none from by decide] at hi
    exact Option.noConfusion hi
  obtain ⟨g1, hstep, hsz, _, _, hbase, _⟩ :=
    processActivity_same_key
      (groupKeyOf zeroSizeFillFirst.transactionHash zeroSizeFillFirst)
      (initGroupOf zeroSizeFillFirst) 0 zeroSizeFillLast (by decide) rfl hid
  have hagg : aggregateTradeActivities [zeroSizeFillFirst, zeroSizeFillLast] =
      [finalizeGroup g1] := by
    rw [aggregateTradeActivities, List.foldl_cons,
      processActivity_start zeroSizeFillFirst (by decide), List.foldl_cons,
      hstep]
    rfl
  have hs0 : g1.sumSize.sum = 0 := by
    rw [hsz]
    show ((KahanSum.empty.add |toNumber zeroSizeFillFirst.size 0|).add
      |toNumber zeroSizeFillLast.size 0|).sum = 0
    norm_num [toNumber, zeroSizeFillFirst, zeroSizeFillLast, mkActivity,
      KahanSum.add_zero_eq]
    rfl
  refine ⟨?_, ?_, by norm_num [toNumber, zeroSizeFillLast, mkActivity],
    by norm_num⟩
  · rw [hagg]
    show [(finalizeGroup g1).size] = [0]
    rw [finalizeGroup_size, hs0]
  · rw [hagg]
    show [(finalizeGroup g1).price] = [3 / 10]
    rw [finalizeGroup_price, hs0, if_neg (lt_irrefl 0), hbase]
    norm_num [initGroupOf, toNumber, zeroSizeFillFirst, mkActivity]

/-- C3: two rows of the same group carrying the same explicit fill
identifier collapse: the later row is dropped and the whole aggregation
output equals that of the first row alone (so it contributes nothing to
size, usdcSize, fill count, min/max price or timestamps); two rows of the
same group that both lack any identifier are both counted — the group
reports two fills and sums both rows — even if all their other fields are
identical. -/
theorem aggregate_dedup_by_explicit_id (r1 r2 : Activity)
    (htx : r1.transactionHash ≠ "")
    (hsame : r2.transactionHash = r1.transactionHash ∧
      r2.conditionId = r1.conditionId ∧ r2.asset = r1.asset ∧
      r2.side = r1.side ∧ r2.type = r1.type) :
    (∀ i, findActivityId r1 = some i → findActivityId r2 = some i →
      aggregateTradeActivities [r1, r2] = aggregateTradeActivities [r1]) ∧
    (findActivityId r1 = none → findActivityId r2 = none →
      ∃ out, aggregateTradeActivities [r1, r2] = [out] ∧
        out.fillCount = 2 ∧
        out.size = |toNumber r1.size 0| + |toNumber r2.size 0| ∧
        out.usdcSize = |toNumber r1.usdcSize 0| + |toNumber r2.usdcSize 0|) := by
  obtain ⟨h1, h2, h3, h4, h5⟩ := hsame
  have htxlen : 0 < r1.transactionHash.length := length_pos_of_ne_empty _ htx
  have htxlen2 : 0 < r2.transactionHash.length := by rw [h1]; exact htxlen
  have hkey2 : groupKeyOf r2.transactionHash r2 =
      groupKeyOf r1.transactionHash r1 := by
    rw [groupKeyOf, groupKeyOf, h1, h2, h3, h4, h5]
  constructor
  · intro i hi1 hi2
    have hmem : i ∈ (initGroupOf r1).seenIds :=
      (initGroupOf_seenIds r1 i).mpr hi1
    rw [aggregateTradeActivities, aggregateTradeActivities, List.foldl_cons,
      List.foldl_cons, processActivity_start r1 htxlen, List.foldl_cons,
      processActivity_dedup _ _ 0 r2 i htxlen2 hkey2 hi2 hmem,
      processActivity_start r1 htxlen]
  · intro hn1 hn2
    have hid : ∀ i, findActivityId r2 = some i →
        i ∉ (initGroupOf r1).seenIds := by
      intro i hi
      rw [hn2] at hi
      exact Option.noConfusion hi
    obtain ⟨g1, hstep, hsz, hus, hfc, hbase, _⟩ :=
      processActivity_same_key (groupKeyOf r1.transactionHash r1)
        (initGroupOf r1) 0 r2 htxlen2 hkey2 hid
    refine ⟨finalizeGroup g1, ?_, ?_, ?_, ?_⟩
    · rw [aggregateTradeActivities, List.foldl_cons,
        processActivity_start r1 htxlen, List.foldl_cons, hstep]
      rfl
    · rw [finalizeGroup_fillCount, hfc]
      rfl
    · rw [finalizeGroup_size, hsz,
        KahanSum.add_sum_of_c_eq_zero _ _ (initGroupOf_sumSize r1).2,
        (initGroupOf_sumSize r1).1]
    · rw [finalizeGroup_usdcSize, hus,
        KahanSum.add_sum_of_c_eq_zero _ _ (initGroupOf_sumUsdc r1).2,
        (initGroupOf_sumUsdc r1).1]

/-- Witness for C3: the id-carrying pair collapses to the singleton
aggregation; the id-less identical pair counts two fills. -/
theorem aggregate_dedup_by_explicit_id_witness :
    aggregateTradeActivities [dupIdFillA, dupIdFillB] =
        aggregateTradeActivities [dupIdFillA] ∧
      ∃ out, aggregateTradeActivities [noIdFillA, noIdFillB] = [out] ∧
        out.fillCount = 2 ∧
        out.size = |toNumber noIdFillA.size 0| + |toNumber noIdFillB.size 0| ∧
        out.usdcSize =
          |toNumber noIdFillA.usdcSize 0| + |toNumber noIdFillB.usdcSize 0| :=
  ⟨(aggregate_dedup_by_explicit_id dupIdFillA dupIdFillB (by decide)
      (by decide)).1 "x" (by decide) (by decide),
    (aggregate_dedup_by_explicit_id noIdFillA noIdFillB (by decide)
      (by decide)).2 (by decide) (by decide)⟩

/-- The head of the descending-notional stable sort is one of the
candidates and carries a maximal notional. -/
theorem selectWinner_mem_max (b : TradeCandidate) (bs : List TradeCandidate) :
    selectWinner (b :: bs) ∈ b :: bs ∧
      ∀ c ∈ b :: bs, c.usdcSize ≤ (selectWinner (b :: bs)).usdcSize := by
  have hperm := List.perm_insertionSort usdcGE (b :: bs)
  have hsorted := List.sorted_insertionSort usdcGE (b :: bs)
  have hne : List.insertionSort usdcGE (b :: bs) ≠ [] := by
    intro h
    have hlen := hperm.length_eq
    rw [h] at hlen
    simp at hlen
  obtain ⟨w, rest, hw⟩ :
      ∃ w rest, List.insertionSort usdcGE (b :: bs) = w :: rest := by
    cases hcase : List.insertionSort usdcGE (b :: bs) with
    | nil => exact absurd hcase hne
    | cons w rest => exact ⟨w, rest, rfl⟩
  have hwsel : selectWinner (b :: bs) = w := by
    rw [selectWinner, hw]
    rfl
  constructor
  · rw [hwsel]
    exact hperm.mem_iff.mp (by rw [hw]; exact List.mem_cons_self w rest)
  · intro c hc
    rw [hwsel]
    have hcs : c ∈ w :: rest := by
      rw [← hw]
      exact hperm.symm.mem_iff.mp hc
    rcases List.mem_cons.mp hcs with h | h
    · rw [h]
    · rw [hw] at hsorted
      exact (List.sorted_cons.mp hsorted).1 c h

/-- With at least one BUY candidate, `establishLeader` routes through the
create attempt for a maximal-notional BUY candidate. -/
theorem establishLeader_buy_case (st : LeaderStore)
    (candidates : List TradeCandidate) (c0 : TradeCandidate)
    (hc0 : c0 ∈ candidates) (hbuy : c0.side = "BUY") :
    ∃ w, w ∈ candidates ∧ w.side = "BUY" ∧
      (∀ c ∈ candidates, c.side = "BUY" → c.usdcSize ≤ w.usdcSize) ∧
      establishLeader st candidates = attemptEstablish st w := by
  have hmem : c0 ∈ candidates.filter (fun c => c.side == "BUY") :=
    List.mem_filter.mpr ⟨hc0, by simp [hbuy]⟩
  obtain ⟨b, bs, hf⟩ :
      ∃ b bs, candidates.filter (fun c => c.side == "BUY") = b :: bs := by
    cases hcase : candidates.filter (fun c => c.side == "BUY") with
    | nil =>
        rw [hcase] at hmem
        exact absurd hmem (List.not_mem_nil c0)
    | cons b bs => exact ⟨b, bs, rfl⟩
  obtain ⟨hwmem, hwmax⟩ := selectWinner_mem_max b bs
  have hwfilter : selectWinner (b :: bs) ∈
      candidates.filter (fun c => c.side == "BUY") := by
    rw [hf]
    exact hwmem
  refine ⟨selectWinner (b :: bs), (List.mem_filter.mp hwfilter).1, ?_, ?_, ?_⟩
  · have hside := (List.mem_filter.mp hwfilter).2
    simpa using hside
  · intro c hc hcbuy
    refine hwmax c ?_
    rw [← hf]
    exact List.mem_filter.mpr ⟨hc, by simp [hcbuy]⟩
  · rw [establishLeader, hf]

/-- C4: with no BUY-side candidate, `establishLeader` answers nothing and
performs no create, leaving the store unchanged; with at least one BUY
candidate, the creation it attempts is for a candidate that is a BUY
candidate of maximal usdcSize. -/
theorem establishLeader_no_buy_or_max (st : LeaderStore)
    (candidates : List TradeCandidate) :
    ((∀ c ∈ candidates, c.side ≠ "BUY") →
      establishLeader st candidates = (none, st)) ∧
    (∀ c0 ∈ candidates, c0.side = "BUY" →
      ∃ w, w ∈ candidates ∧ w.side = "BUY" ∧
        (∀ c ∈ candidates, c.side = "BUY" → c.usdcSize ≤ w.usdcSize) ∧
        establishLeader st candidates = attemptEstablish st w) := by
  constructor
  · intro h
    have hf : candidates.filter (fun c => c.side == "BUY") = [] := by
      rw [List.filter_eq_nil_iff]
      intro c hc
      simp only [beq_iff_eq]
      exact h c hc
    rw [establishLeader, hf]
  · intro c0 hc0 hbuy
    exact establishLeader_buy_case st candidates c0 hc0 hbuy

/-- Witness for C4: a SELL-only list changes nothing; with BUY candidates
of notionals 50 and 200 plus a SELL of 500, the attempted creation is for
a maximal BUY candidate. -/
theorem establishLeader_no_buy_or_max_witness :
    establishLeader emptyStore [candSell] = (none, emptyStore) ∧
      ∃ w, w ∈ [candSmall, candBig, candSell] ∧ w.side = "BUY" ∧
        (∀ c ∈ [candSmall, candBig, candSell], c.side = "BUY" →
          c.usdcSize ≤ w.usdcSize) ∧
        establishLeader emptyStore [candSmall, candBig, candSell] =
          attemptEstablish emptyStore w :=
  ⟨(establishLeader_no_buy_or_max emptyStore [candSell]).1
      (by
        intro c hc
        rcases List.mem_cons.mp hc with h | h
        · rw [h]; decide
        · exact absurd h (List.not_mem_nil c)),
    (establishLeader_no_buy_or_max emptyStore
        [candSmall, candBig, candSell]).2 candSmall
      (List.mem_cons_self _ _) rfl⟩

/-- C5: when the store already holds an active leader record for the
instrument the candidates target — so the atomic create is rejected with a
uniqueness violation on (conditionId, isActive) by a concurrent winner —
`establishLeader` re-reads the now-active record and returns it as the
winner (the same successful outcome shape as establishing it), with the
store unchanged. -/
theorem establishLeader_race_returns_existing (st : LeaderStore)
    (candidates : List TradeCandidate) (cid : String)
    (L : MarketLeaderRecord)
    (hcand : ∀ c ∈ candidates, c.conditionId = cid)
    (hc0 : ∃ c0 ∈ candidates, c0.side = "BUY")
    (hL : findActive st cid = some L) :
    establishLeader st candidates = (some (candidateOfLeader L), st) := by
  obtain ⟨c0, hc0mem, hc0buy⟩ := hc0
  obtain ⟨w, hwmem, _, _, heq⟩ :=
    establishLeader_buy_case st candidates c0 hc0mem hc0buy
  have hwcid : w.conditionId = cid := hcand w hwmem
  have hL2 : st.records.find?
      (fun r => r.conditionId == cid && r.isActive) = some L := hL
  have hany : (st.records.any fun q => q.conditionId == cid && q.isActive)
      = true := by
    have hLmem := List.mem_of_find?_eq_some hL2
    have hLprop := List.find?_some hL2
    exact List.any_eq_true.mpr ⟨L, hLmem, by simpa using hLprop⟩
  have hcreate : createLeader st (leaderRecordOfCandidate w) =
      CreateOutcome.dupConditionActive := by
    rw [createLeader]
    have h1 : (leaderRecordOfCandidate w).conditionId = cid := hwcid
    simp only [h1, hany]
    rfl
  rw [heq, attemptEstablish, hcreate]
  show (match findActive st w.conditionId with
    | some existingLeader => (some (candidateOfLeader existingLeader), st)
    | none => ((none : Option TradeCandidate), st)) =
    (some (candidateOfLeader L), st)
  rw [hwcid, hL]

/-- Witness for C5: the store already holds the concurrent winner's active
record for instrument "c1"; the BUY candidates lose the race and receive
that record as the winner. -/
theorem establishLeader_race_returns_existing_witness :
    establishLeader storeWithLeader [candSmall, candBig] =
      (some (candidateOfLeader concurrentWinnerRecord), storeWithLeader) :=
  establishLeader_race_returns_existing storeWithLeader
    [candSmall, candBig] "c1" concurrentWinnerRecord
    (by
      intro c hc
      rcases List.mem_cons.mp hc with h | hc2
      · rw [h]; rfl
      rcases List.mem_cons.mp hc2 with h | hc3
      · rw [h]; rfl
      exact absurd hc3 (List.not_mem_nil c))
    ⟨candSmall, List.mem_cons_self _ _, rfl⟩ rfl

/-- The side comparator is antisymmetric. -/
theorem sortTradesBySide_neg (a b : TradeWithUser) :
    sortTradesBySide b a = -sortTradesBySide a b := by
  unfold sortTradesBySide
  by_cases hs : a.side = b.side
  · rw [if_pos hs, if_pos hs.symm]
    norm_num
  · have hs2 : ¬b.side = a.side := fun h => hs h.symm
    rw [if_neg hs, if_neg hs2]
    by_cases ha : a.side = "BUY"
    · have hb : ¬b.side = "BUY" := fun h => hs (ha.trans h.symm)
      rw [if_neg hb, if_pos ha, if_pos ha]
      norm_num
    · by_cases hb : b.side = "BUY"
      · rw [if_pos hb, if_neg ha, if_pos hb]
      · rw [if_neg hb, if_neg ha, if_neg ha, if_neg hb]
        norm_num

/-- The full leader comparator is antisymmetric. -/
theorem sortLeaderTrades_neg (a b : TradeWithUser) :
    sortLeaderTrades b a = -sortLeaderTrades a b := by
  unfold sortLeaderTrades
  by_cases ht : getTradeTimestamp a = getTradeTimestamp b
  · rw [if_neg (show ¬(getTradeTimestamp b ≠ getTradeTimestamp a) from
        fun h => h ht.symm),
      if_neg (show ¬(getTradeTimestamp a ≠ getTradeTimestamp b) from
        fun h => h ht),
      sortTradesBySide_neg a b]
    by_cases h0 : sortTradesBySide a b = 0
    · rw [h0, neg_zero,
        if_neg (show ¬((0 : ℤ) ≠ 0) from fun h => h rfl),
        if_neg (show ¬((0 : ℤ) ≠ 0) from fun h => h rfl)]
      ring
    · rw [if_pos (show -sortTradesBySide a b ≠ 0 from neg_ne_zero.mpr h0),
        if_pos (show sortTradesBySide a b ≠ 0 from h0)]
      push_cast
      ring
  · rw [if_pos (show getTradeTimestamp b ≠ getTradeTimestamp a from
        fun h => ht h.symm),
      if_pos (show getTradeTimestamp a ≠ getTradeTimestamp b from ht)]
    ring

/-- The comparator-induced order matches the lexicographic description:
ascending timestamp, then BUY before non-BUY, then descending notional. -/
theorem leaderLE_iff (a b : TradeWithUser) :
    leaderLE a b ↔
      (getTradeTimestamp a < getTradeTimestamp b ∨
        (getTradeTimestamp a = getTradeTimestamp b ∧
          (sideRank a < sideRank b ∨
            (sideRank a = sideRank b ∧ b.usdcSize ≤ a.usdcSize)))) := by
  unfold leaderLE sortLeaderTrades
  by_cases ht : getTradeTimestamp a = getTradeTimestamp b
  · simp only [ht, ne_eq, not_true_eq_false, if_false, lt_irrefl, false_or,
      true_and]
    by_cases hs : a.side = b.side
    · have h0 : sortTradesBySide a b = 0 := by
        unfold sortTradesBySide
        rw [if_pos hs]
      have hr : sideRank a = sideRank b := by
        unfold sideRank
        rw [hs]
      simp only [h0, ne_eq, not_true_eq_false, if_false, hr, lt_irrefl,
        false_or, true_and, sub_nonpos]
    · by_cases ha : a.side = "BUY"
      · have hb : ¬b.side = "BUY" := fun h => hs (ha.trans h.symm)
        have h1 : sortTradesBySide a b = -1 := by
          unfold sortTradesBySide
          rw [if_neg hs, if_pos ha]
        have hr : sideRank a < sideRank b := by
          unfold sideRank
          rw [if_pos ha, if_neg hb]
          omega
        simp only [h1, hr, true_or, iff_true]
        norm_num
      · by_cases hb : b.side = "BUY"
        · have h1 : sortTradesBySide a b = 1 := by
            unfold sortTradesBySide
            rw [if_neg hs, if_neg ha, if_pos hb]
          have hra : sideRank a = 1 := by
            unfold sideRank
            rw [if_neg ha]
          have hrb : sideRank b = 0 := by
            unfold sideRank
            rw [if_pos hb]
          simp only [h1, hra, hrb]
          norm_num
        · have h0 : sortTradesBySide a b = 0 := by
            unfold sortTradesBySide
            rw [if_neg hs, if_neg ha, if_neg hb]
          have hr : sideRank a = sideRank b := by
            unfold sideRank
            rw [if_neg ha, if_neg hb]
          simp only [h0, ne_eq, not_true_eq_false, if_false, hr, lt_irrefl,
            false_or, true_and, sub_nonpos]
  · have hlt : getTradeTimestamp a - getTradeTimestamp b ≤ 0 ↔
        getTradeTimestamp a < getTradeTimestamp b := by
      constructor
      · intro h
        exact lt_of_le_of_ne (by linarith) ht
      · intro h
        linarith
    simp only [ne_eq, ht, not_false_eq_true, if_true, hlt, false_and,
      or_false]

/-- The comparator order is total. -/
theorem leaderLE_total (a b : TradeWithUser) : leaderLE a b ∨ leaderLE b a := by
  unfold leaderLE
  rw [sortLeaderTrades_neg a b]
  rcases le_total (sortLeaderTrades a b) 0 with h | h
  · exact Or.inl h
  · exact Or.inr (by linarith)

/-- The comparator order is transitive. -/
theorem leaderLE_trans (a b c : TradeWithUser) (h1 : leaderLE a b)
    (h2 : leaderLE b c) : leaderLE a c := by
  rw [leaderLE_iff] at h1 h2 ⊢
  rcases h1 with h1 | ⟨h1t, h1s⟩
  · rcases h2 with h2 | ⟨h2t, _⟩
    · exact Or.inl (h1.trans h2)
    · exact Or.inl (h2t ▸ h1)
  · rcases h2 with h2 | ⟨h2t, h2s⟩
    · exact Or.inl (h1t ▸ h2)
    · refine Or.inr ⟨h1t.trans h2t, ?_⟩
      rcases h1s with h1s | ⟨h1r, h1u⟩
      · rcases h2s with h2s | ⟨h2r, _⟩
        · exact Or.inl (h1s.trans h2s)
        · exact Or.inl (h2r ▸ h1s)
      · rcases h2s with h2s | ⟨h2r, h2u⟩
        · exact Or.inl (h1r ▸ h2s)
        · exact Or.inr ⟨h1r.trans h2r, h2u.trans h1u⟩

/-- C6 (amended): for every election window with a leader, the router
accepts exactly the leader account's signals of the window (a permutation
of that filter), ordered by ascending timestamp first; among signals with
equal timestamps, BUY before SELL; among equal timestamps and equal side
rank, by descending notional (usdcSize). -/
theorem acceptedLeaderTrades_order (window : List TradeWithUser)
    (leaderAddress : String) :
    List.Perm (acceptedLeaderTrades window leaderAddress)
      (window.filter fun t => t.userAddress.toLower == leaderAddress) ∧
    (acceptedLeaderTrades window leaderAddress).Pairwise fun a b =>
      getTradeTimestamp a < getTradeTimestamp b ∨
        (getTradeTimestamp a = getTradeTimestamp b ∧
          (sideRank a < sideRank b ∨
            (sideRank a = sideRank b ∧ b.usdcSize ≤ a.usdcSize))) := by
  constructor
  · exact List.perm_insertionSort leaderLE _
  · have hsorted :
        (acceptedLeaderTrades window leaderAddress).Pairwise leaderLE := by
      refine @List.sorted_insertionSort TradeWithUser leaderLE _ ⟨?_⟩ ⟨?_⟩ _
      · exact leaderLE_total
      · exact fun a b c => leaderLE_trans a b c
    exact hsorted.imp fun h => (leaderLE_iff _ _).mp h

/-- The window's two leader trades: the SELL at t = 0 sorts before the BUY
at t = 1, because the comparator orders by timestamp first. -/
theorem acceptedLeaderTrades_cex_eval :
    acceptedLeaderTrades [sellEarly, buyLate] leadAddr =
      [sellEarly, buyLate] := by
  have hle : leaderLE sellEarly buyLate := by
    unfold leaderLE sortLeaderTrades
    norm_num [getTradeTimestamp, sellEarly, buyLate, mkTrade]
  have hfilter : [sellEarly, buyLate].filter
      (fun t => t.userAddress.toLower == leadAddr) = [sellEarly, buyLate] := by
    simp [List.filter_cons, sellEarly, buyLate, mkTrade, leadAddr]
  rw [acceptedLeaderTrades, hfilter]
  show List.orderedInsert leaderLE sellEarly
    (List.orderedInsert leaderLE buyLate []) = [sellEarly, buyLate]
  rw [List.orderedInsert, List.orderedInsert, if_pos hle]

/-- C6 counterexample: a window holding a leader SELL at t = 0 and a
leader BUY at t = 1 is accepted as [SELL, BUY]: the claimed
BUY-before-SELL order does not hold, because the comparator sorts by
timestamp before side. -/
theorem acceptedLeaderTrades_order_counterexample :
    acceptedLeaderTrades [sellEarly, buyLate] leadAddr =
        [sellEarly, buyLate] ∧
      sellEarly.side = "SELL" ∧ buyLate.side = "BUY" ∧
      ¬ (acceptedLeaderTrades [sellEarly, buyLate] leadAddr).Pairwise
          fun a b => ¬(a.side = "SELL" ∧ b.side = "BUY") := by
  refine ⟨acceptedLeaderTrades_cex_eval, rfl, rfl, ?_⟩
  rw [acceptedLeaderTrades_cex_eval]
  intro hpair
  exact (List.pairwise_cons.mp hpair).1 buyLate
    (List.mem_cons_self buyLate []) ⟨rfl, rfl⟩

/-- A scan entry is released only when its window has elapsed. -/
theorem scanEntry_ready_elapsed (leaderOf : String → Option String)
    (now windowMs : ℚ) (agg : AggregatedTrade)
    (h : scanEntry leaderOf now windowMs agg = ScanOutcome.ready) :
    windowMs ≤ now - agg.firstTradeTime := by
  unfold scanEntry at h
  by_cases h1 : leaderOf agg.conditionId = none ∨
      leaderOf agg.conditionId ≠ some agg.userAddress.toLower
  · rw [if_pos h1] at h
    exact absurd h (by simp)
  · rw [if_neg h1] at h
    by_cases h2 : windowMs ≤ now - agg.firstTradeTime
    · exact h2
    · rw [if_neg h2] at h
      exact absurd h (by simp)

/-- An entry whose leader is intact and whose window has not yet elapsed
is kept. -/
theorem scanEntry_keep (leaderOf : String → Option String)
    (now windowMs : ℚ) (agg : AggregatedTrade)
    (hleader : leaderOf agg.conditionId = some agg.userAddress.toLower)
    (hyoung : now - agg.firstTradeTime < windowMs) :
    scanEntry leaderOf now windowMs agg = ScanOutcome.keep := by
  unfold scanEntry
  rw [if_neg, if_neg (not_le.mpr hyoung)]
  rintro (h | h)
  · rw [hleader] at h
    exact Option.noConfusion h
  · exact h hleader

/-- C7 (amended): a pending aggregation entry whose elapsed time is
strictly below the window length survives one scan unchanged PROVIDED the
instrument's active leader is still the entry's account; the release and
the below-minimum discard fire only once the window has elapsed, but the
leader-change discard runs on every scan regardless of elapsed time. -/
theorem scan_keeps_young_entry_of_same_leader
    (leaderOf : String → Option String) (now windowMs : ℚ)
    (buffer : List (String × AggregatedTrade)) (k : String)
    (e : AggregatedTrade) (hmem : (k, e) ∈ buffer)
    (hleader : leaderOf e.conditionId = some e.userAddress.toLower)
    (hyoung : now - e.firstTradeTime < windowMs) :
    (k, e) ∈ (getReadyAggregatedTrades leaderOf now windowMs buffer).2 ∧
      (∀ a ∈ (getReadyAggregatedTrades leaderOf now windowMs buffer).1,
        windowMs ≤ now - a.firstTradeTime) := by
  have hkeep := scanEntry_keep leaderOf now windowMs e hleader hyoung
  constructor
  · refine List.mem_filter.mpr ⟨hmem, ?_⟩
    rw [hkeep]
    rfl
  · intro a ha
    obtain ⟨kv, hkv, hkva⟩ := List.mem_map.mp ha
    have hready := (List.mem_filter.mp hkv).2
    have : scanEntry leaderOf now windowMs kv.2 = ScanOutcome.ready := by
      exact of_decide_eq_true hready
    rw [hkva] at this
    exact scanEntry_ready_elapsed leaderOf now windowMs a this

/-- Witness for C7 (amended): the half-filled entry of `singletonBuffer`
survives a scan at time 1 with a 10-unit window while its account is still
the leader. -/
theorem scan_keeps_young_entry_of_same_leader_witness :
    ((getAggregationKey bufferedTrade, pendingEntry) ∈
      (getReadyAggregatedTrades (fun _ => some "0xacc".toLower) 1 10
        singletonBuffer).2) ∧
      (∀ a ∈ (getReadyAggregatedTrades (fun _ => some "0xacc".toLower) 1 10
          singletonBuffer).1,
        (10 : ℚ) ≤ 1 - a.firstTradeTime) :=
  scan_keeps_young_entry_of_same_leader (fun _ => some "0xacc".toLower) 1 10
    singletonBuffer (getAggregationKey bufferedTrade) pendingEntry
    (List.mem_cons_self _ _) rfl
    (by norm_num [pendingEntry])

/-- C7 counterexample: the entry's window has not elapsed (1 − 0 < 10),
yet one scan with no active leader for the instrument discards it — the
leader check runs before the window check, so the buffer does not keep the
young entry unchanged. -/
theorem scan_keeps_young_entry_counterexample :
    (1 : ℚ) - pendingEntry.firstTradeTime < 10 ∧
      (getReadyAggregatedTrades (fun _ => none) 1 10 singletonBuffer).2 =
        [] ∧
      singletonBuffer ≠ [] := by
  have hdrop : scanEntry (fun _ => none) 1 10 pendingEntry =
      ScanOutcome.dropLeaderChange := by
    unfold scanEntry
    rw [if_pos (Or.inl rfl)]
  refine ⟨by norm_num [pendingEntry], ?_, by simp [singletonBuffer]⟩
  simp [getReadyAggregatedTrades, singletonBuffer, hdrop]

/-- C8: whenever the amount left after strategy, multiplier, max-order
clamp and position-headroom reduction is below `minOrderSizeUSD`, the
result is flagged `belowMinimum`, and the final amount is exactly
`minOrderSizeUSD` when `availableBalance × 0.99` covers the minimum, and
exactly 0 otherwise.  (Balances are non-negative.) -/
theorem calculateOrderSize_below_minimum (curve : ℚ → ℚ)
    (config : CopyStrategyConfig)
    (signalNotional availableBalance currentPositionNotional : ℚ)
    (hbal : 0 ≤ availableBalance)
    (hbelow : amountAfterClamps curve config signalNotional
      currentPositionNotional < config.minOrderSizeUSD) :
    (calculateOrderSize curve config signalNotional availableBalance
      currentPositionNotional).belowMinimum = true ∧
    (config.minOrderSizeUSD ≤ availableBalance * (99 / 100) →
      (calculateOrderSize curve config signalNotional availableBalance
        currentPositionNotional).finalAmount = config.minOrderSizeUSD) ∧
    (availableBalance * (99 / 100) < config.minOrderSizeUSD →
      (calculateOrderSize curve config signalNotional availableBalance
        currentPositionNotional).finalAmount = 0) := by
  refine ⟨?_, ?_, ?_⟩
  · simp only [calculateOrderSize]
    exact decide_eq_true hbelow
  · intro haff
    simp only [calculateOrderSize]
    rw [if_pos hbelow, if_pos haff, if_neg (not_lt.mpr haff)]
  · intro hnot
    have hbal99 : 0 ≤ availableBalance * (99 / 100) :=
      mul_nonneg hbal (by norm_num)
    simp only [calculateOrderSize]
    rw [if_pos hbelow, if_neg (not_le.mpr hnot),
      if_neg (not_lt.mpr hbal99)]

/-- Witness for C8 at the recorded test vectors: signal 5 with balance 1
is unaffordable (final 0); signal 5 with balance 1000 is bumped to exactly
the minimum 1. -/
theorem calculateOrderSize_below_minimum_witness :
    (calculateOrderSize (fun x => x) baseSizingConfig 5 1 0).belowMinimum =
        true ∧
      (calculateOrderSize (fun x => x) baseSizingConfig 5 1 0).finalAmount =
        0 ∧
      (calculateOrderSize (fun x => x) baseSizingConfig 5 1000
          0).belowMinimum = true ∧
      (calculateOrderSize (fun x => x) baseSizingConfig 5 1000
          0).finalAmount = baseSizingConfig.minOrderSizeUSD := by
  have hclamp : amountAfterClamps (fun x => x) baseSizingConfig 5 0 <
      baseSizingConfig.minOrderSizeUSD := by
    norm_num [amountAfterClamps, baseAmountOf, getTradeMultiplier,
      baseSizingConfig]
  have h1 := calculateOrderSize_below_minimum (fun x => x) baseSizingConfig
    5 1 0 (by norm_num) hclamp
  have h2 := calculateOrderSize_below_minimum (fun x => x) baseSizingConfig
    5 1000 0 (by norm_num) hclamp
  exact ⟨h1.1, h1.2.2 (by norm_num [baseSizingConfig]),
    h2.1, h2.2.1 (by norm_num [baseSizingConfig])⟩

/-- C9: under the default thresholds, `getBuyDecision` rejects non-finite
or non-positive prices and prices above 0.95; accepts
0.80 ≤ p ≤ 0.95 with cap min(p + 0.01, 0.99); accepts 0.20 ≤ p < 0.80
with cap min(p + 0.03, 0.99); accepts 0 < p < 0.20 with cap
min(p × 1.2, 0.99); and every accepted cap is at most 0.99. -/
theorem getBuyDecision_default_zones (p : Option ℚ) :
    (p = none → getBuyDecision defaultBuySlippageConfig p =
      ⟨false, none⟩) ∧
    (∀ q, p = some q →
      (q ≤ 0 → getBuyDecision defaultBuySlippageConfig p = ⟨false, none⟩) ∧
      (95 / 100 < q →
        getBuyDecision defaultBuySlippageConfig p = ⟨false, none⟩) ∧
      (8 / 10 ≤ q → q ≤ 95 / 100 →
        getBuyDecision defaultBuySlippageConfig p =
          ⟨true, some (min (q + 1 / 100) (99 / 100))⟩) ∧
      (2 / 10 ≤ q → q < 8 / 10 →
        getBuyDecision defaultBuySlippageConfig p =
          ⟨true, some (min (q + 3 / 100) (99 / 100))⟩) ∧
      (0 < q → q < 2 / 10 →
        getBuyDecision defaultBuySlippageConfig p =
          ⟨true, some (min (q * (12 / 10)) (99 / 100))⟩)) ∧
    ((getBuyDecision defaultBuySlippageConfig p).shouldBuy = true →
      ∃ c, (getBuyDecision defaultBuySlippageConfig p).maxAcceptablePrice =
        some c ∧ c ≤ 99 / 100) := by
  refine ⟨?_, ?_, ?_⟩
  · intro hp
    rw [hp]
    rfl
  · intro q hp
    subst hp
    refine ⟨?_, ?_, ?_, ?_, ?_⟩
    · intro h
      simp only [getBuyDecision, defaultBuySlippageConfig]
      rw [if_pos h]
    · intro h
      simp only [getBuyDecision, defaultBuySlippageConfig]
      rw [if_neg (not_le.mpr (lt_trans (by norm_num) h)), if_pos h]
    · intro h1 h2
      simp only [getBuyDecision, defaultBuySlippageConfig, capMax]
      rw [if_neg (not_le.mpr (lt_of_lt_of_le (by norm_num) h1)),
        if_neg (not_lt.mpr h2), if_pos h1, if_neg (by norm_num : ¬((99 : ℚ) / 100 ≤ 0))]
    · intro h1 h2
      simp only [getBuyDecision, defaultBuySlippageConfig, capMax]
      rw [if_neg (not_le.mpr (lt_of_lt_of_le (by norm_num) h1)),
        if_neg (not_lt.mpr (by linarith)), if_neg (not_le.mpr h2),
        if_pos h1, if_neg (by norm_num : ¬((99 : ℚ) / 100 ≤ 0))]
    · intro h1 h2
      simp only [getBuyDecision, defaultBuySlippageConfig, capMax]
      rw [if_neg (not_le.mpr h1), if_neg (not_lt.mpr (by linarith)),
        if_neg (not_le.mpr (by linarith)), if_neg (not_le.mpr (by linarith)),
        if_neg (by norm_num : ¬((99 : ℚ) / 100 ≤ 0))]
  · intro hbuy
    cases p with
    | none => exact absurd hbuy (by simp [getBuyDecision])
    | some q =>
        simp only [getBuyDecision, defaultBuySlippageConfig, capMax] at hbuy ⊢
        split_ifs at hbuy ⊢ with h1 h2 h3 h4 h5 h6 h7
        · exact absurd h4 (by norm_num)
        · exact ⟨_, rfl, min_le_right _ _⟩
        · exact absurd h6 (by norm_num)
        · exact ⟨_, rfl, min_le_right _ _⟩
        · exact absurd h7 (by norm_num)
        · exact ⟨_, rfl, min_le_right _ _⟩

/-- Witness for C9 at the recorded vectors: 0.9 accepts with cap
min(0.91, 0.99); 0.951 rejects; 0.05 accepts with cap min(0.06, 0.99);
0 rejects; a missing (non-finite) price rejects. -/
theorem getBuyDecision_default_zones_witness :
    getBuyDecision defaultBuySlippageConfig (some (9 / 10)) =
        ⟨true, some (min ((9 : ℚ) / 10 + 1 / 100) (99 / 100))⟩ ∧
      getBuyDecision defaultBuySlippageConfig (some (951 / 1000)) =
        ⟨false, none⟩ ∧
      getBuyDecision defaultBuySlippageConfig (some (5 / 100)) =
        ⟨true, some (min ((5 : ℚ) / 100 * (12 / 10)) (99 / 100))⟩ ∧
      getBuyDecision defaultBuySlippageConfig (some 0) = ⟨false, none⟩ ∧
      getBuyDecision defaultBuySlippageConfig none = ⟨false, none⟩ :=
  ⟨((getBuyDecision_default_zones (some (9 / 10))).2.1 (9 / 10)
      rfl).2.2.1 (by norm_num) (by norm_num),
    ((getBuyDecision_default_zones (some (951 / 1000))).2.1 (951 / 1000)
      rfl).2.1 (by norm_num),
    ((getBuyDecision_default_zones (some (5 / 100))).2.1 (5 / 100)
      rfl).2.2.2.2 (by norm_num) (by norm_num),
    ((getBuyDecision_default_zones (some 0)).2.1 0 rfl).1 le_rfl,
    (getBuyDecision_default_zones none).1 rfl⟩

/-- C10: adding a trade whose `_id` is already among a pending entry's
constituent trades leaves the whole buffer — hence the entry's trade list,
totals, weighted price and timestamps — completely unchanged. -/
theorem addToAggregationBuffer_idempotent (trade : TradeWithUser) (now : ℚ)
    (buffer : List (String × AggregatedTrade)) (agg : AggregatedTrade)
    (hfind : findAgg buffer (getAggregationKey trade) = some agg)
    (hdup : ∃ t ∈ agg.trades, t._id = trade._id) :
    addToAggregationBuffer trade now buffer = buffer := by
  simp only [addToAggregationBuffer]
  rw [hfind]
  have hany : (agg.trades.any fun t => t._id == trade._id) = true := by
    obtain ⟨t, ht, hid⟩ := hdup
    exact List.any_eq_true.mpr ⟨t, ht, by simp [hid]⟩
  simp [hany]

/-- Witness for C10: redelivering the already-buffered trade of
`singletonBuffer` changes nothing. -/
theorem addToAggregationBuffer_idempotent_witness :
    addToAggregationBuffer bufferedTrade 5 singletonBuffer =
      singletonBuffer :=
  addToAggregationBuffer_idempotent bufferedTrade 5 singletonBuffer
    pendingEntry rfl ⟨bufferedTrade, List.mem_cons_self _ _, rfl⟩

end CopyBot
